import Mathlib

/-!
Verification of the Lighthouse widget repository.

The development shallowly embeds the two components the specification
singles out:

* the recommendation extractor of `js/lighthouse-widget.js`
  (`extractApiRecommendations`, `getImpactLevel`, `processDescription`,
  `getFriendlyDescription`), and
* the Cloudflare Pages proxy forwarder of `functions/api/lighthouse.js`
  (`onRequestPost`).

JavaScript strings become `String`, audit scores become `ℚ`, nullable or
possibly-absent fields become `Option`, and the external world of the
forwarder (the parsed request body and the upstream fetch outcome) is
passed in explicitly.  Definitions keep the source's names.
-/

/-! ## JavaScript string primitives -/

/-- The character class `\s` of JavaScript regular expressions, which is
also the set of characters removed by `String.prototype.trim`. -/
def jsSpace (c : Char) : Bool :=
  c = ' ' || c = '\t' || c = '\n' || c = '\x0b' || c = '\x0c' || c = '\r' ||
  c = '\u00a0' || c = '\u1680' || (0x2000 ≤ c.toNat && c.toNat ≤ 0x200a) ||
  c = '\u2028' || c = '\u2029' || c = '\u202f' || c = '\u205f' ||
  c = '\u3000' || c = '\ufeff'

/-- `trim` on character lists: drop `\s` characters from both ends. -/
def jsTrimList (l : List Char) : List Char :=
  ((l.dropWhile jsSpace).reverse.dropWhile jsSpace).reverse

/-- JavaScript `String.prototype.trim`. -/
def jsTrim (s : String) : String :=
  (jsTrimList s.toList).asString

/-- JavaScript `Math.round` on the rationals: round half toward positive
infinity. -/
def jsRound (q : ℚ) : ℤ :=
  ⌊q + 1/2⌋

/-! ## The URL pattern `/(https?:\/\/[^\s).,;]+)/g` -/

/-- The negated character class `[^\s).,;]` of the URL pattern. -/
def urlAllowed (c : Char) : Bool :=
  !(jsSpace c || c = ')' || c = '.' || c = ',' || c = ';')

/-- The literal characters of `https://`. -/
def httpsChars : List Char := ['h', 't', 't', 'p', 's', ':', '/', '/']

/-- The literal characters of `http://`. -/
def httpChars : List Char := ['h', 't', 't', 'p', ':', '/', '/']

/-- Attempt to match the URL pattern at the head of the input.  On success
return the (greedy) matched characters together with the remaining input.
The two scheme alternatives of `https?` are mutually exclusive on their
fifth character. -/
def matchUrlAt : List Char → Option (List Char × List Char)
  | 'h' :: 't' :: 't' :: 'p' :: 's' :: ':' :: '/' :: '/' :: rest =>
    if rest.takeWhile urlAllowed = [] then none
    else some (httpsChars ++ rest.takeWhile urlAllowed, rest.dropWhile urlAllowed)
  | 'h' :: 't' :: 't' :: 'p' :: ':' :: '/' :: '/' :: rest =>
    if rest.takeWhile urlAllowed = [] then none
    else some (httpChars ++ rest.takeWhile urlAllowed, rest.dropWhile urlAllowed)
  | _ => none

/-- One global scan of the input, as performed identically by
`description.match(urlRegex)` and `description.replace(urlRegex, '')`:
at each position try the pattern; on a match, emit it and resume after it;
otherwise keep the character and advance by one.  Structured with explicit
fuel so that it evaluates by kernel reduction; `scanUrls` supplies enough
fuel. -/
def scanUrlsAux : Nat → List Char → List Char × List (List Char)
  | 0, cs => (cs, [])
  | fuel + 1, cs =>
    match matchUrlAt cs with
    | some (m, rest) =>
      let p := scanUrlsAux fuel rest
      (p.1, m :: p.2)
    | none =>
      match cs with
      | [] => ([], [])
      | c :: cs' =>
        let p := scanUrlsAux fuel cs'
        (c :: p.1, p.2)

/-- Scan a character list for all matches of the URL pattern, returning
the unmatched characters (in order) and the list of matches (in order). -/
def scanUrls (cs : List Char) : List Char × List (List Char) :=
  scanUrlsAux cs.length cs

/-- `description.match(urlRegex)` — the list of matched substrings. -/
def jsMatchAll (s : String) : List String :=
  (scanUrls s.toList).2.map List.asString

/-- `description.replace(urlRegex, '')` — the input with every match
removed. -/
def replaceUrls (s : String) : String :=
  (scanUrls s.toList).1.asString

/-! ## `processDescription` (lighthouse-widget.js lines 196–218) -/

/-- The character class `[.,)\s]` of the trailing-cleanup pattern
`/[.,)\s]+$/`. -/
def trailingClass (c : Char) : Bool :=
  c = '.' || c = ',' || c = ')' || jsSpace c

/-- `cleanDescription.replace(/[.,)\s]+$/, '')`: remove the maximal run of
trailing-class characters at the end of the string. -/
def stripTrailingList (l : List Char) : List Char :=
  (l.reverse.dropWhile trailingClass).reverse

/-- String form of `stripTrailingList`. -/
def stripTrailing (s : String) : String :=
  (stripTrailingList s.toList).asString

/-- The value returned by `processDescription`: either a plain string, or
the `{ text, learnMoreUrl }` object. -/
inductive ProcessedDesc
  | str (s : String)
  | obj (text : String) (learnMoreUrl : String)
deriving DecidableEq

/-- `processDescription`: return `''` on a falsy input; return the input
unchanged when the URL pattern finds no match; otherwise remove every
match, trim, remove trailing punctuation/parenthesis/whitespace, trim
again, and pair the cleaned text with the first URL found. -/
def processDescription (description : String) : ProcessedDesc :=
  if description = "" then .str ""
  else
    match jsMatchAll description with
    | [] => .str description
    | u :: _ =>
      let cleanDescription := jsTrim (replaceUrls description)
      let cleanDescription2 := jsTrim (stripTrailing cleanDescription)
      .obj cleanDescription2 u

/-- The URL-stripping step by itself (line 208 of the widget source):
`description.replace(urlRegex, '').trim()`. -/
def stripUrls (s : String) : String :=
  jsTrim (replaceUrls s)

/-- `typeof processedDesc === 'string' ? processedDesc : processedDesc.text`,
the ternary at each push site of the extractor. -/
def descText : ProcessedDesc → String
  | .str s => s
  | .obj t _ => t

/-- `typeof processedDesc === 'object' ? processedDesc.learnMoreUrl : null`,
the ternary at each push site of the extractor. -/
def descUrl : ProcessedDesc → Option String
  | .str _ => none
  | .obj _ u => some u

/-! ## `getImpactLevel` (lines 189–193) -/

/-- Impact level from the raw audit score. -/
def getImpactLevel (score : ℚ) : String :=
  if score = 0 then "High"
  else if score < 1/2 then "Medium"
  else "Low"

/-! ## `getFriendlyDescription` (lines 221–279) -/

/-- The flat `friendlyDescriptions` object literal, in source order.  The
key `document-title` is declared twice (once in the accessibility section,
once in the SEO section); as in a JavaScript object literal, the later
declaration wins, which `lookupLast` reproduces. -/
def friendlyDescriptions : List (String × String) := [
  ("largest-contentful-paint", "The main content on your page takes too long to load. This affects how quickly users can see and interact with your site."),
  ("first-contentful-paint", "Your page takes too long to show any content to users. Faster loading improves user experience."),
  ("speed-index", "Your page content loads slowly. Optimizing images and code can make your site feel much faster."),
  ("cumulative-layout-shift", "Elements on your page move around while loading, which can be frustrating for users trying to click buttons or read content."),
  ("total-blocking-time", "Scripts on your page are preventing users from interacting with it quickly. Optimizing JavaScript will make your site more responsive."),
  ("render-blocking-resources", "Some files are preventing your page from loading quickly. Moving or optimizing these files will speed up your site."),
  ("unused-css-rules", "Your site is loading CSS styles that aren't being used, which slows down loading time."),
  ("unused-javascript", "Your site is loading JavaScript code that isn't being used, which affects performance."),
  ("modern-image-formats", "Your images could be in more efficient formats (like WebP) to load faster and use less bandwidth."),
  ("efficiently-encode-images", "Your images aren't optimized, making them larger than necessary and slower to load."),
  ("offscreen-images", "Images that aren't visible when the page first loads should be loaded later to improve initial loading speed."),
  ("unminified-css", "Your CSS files contain extra spaces and comments that make them larger than necessary."),
  ("unminified-javascript", "Your JavaScript files contain extra spaces and comments that make them larger than necessary."),
  ("server-response-time", "Your web server takes too long to respond, which delays page loading for all visitors."),
  ("uses-text-compression", "Your text files aren't compressed, making them take longer to download."),
  ("uses-rel-preconnect", "Your site could load faster by connecting to external services earlier in the loading process."),
  ("uses-rel-preload", "Important resources could be loaded earlier to improve page speed."),
  ("font-display", "Your custom fonts could be set up to show text faster while the fonts are loading."),
  ("color-contrast", "Some text on your site is hard to read due to insufficient color contrast, making it difficult for users with vision impairments."),
  ("image-alt", "Some images are missing descriptions, making them inaccessible to screen readers and users with visual impairments."),
  ("label", "Some form fields are missing labels, making it difficult for users with disabilities to understand what information to enter."),
  ("link-name", "Some links don't have descriptive text, making it unclear where they lead for screen reader users."),
  ("button-name", "Some buttons don't have clear names, making it confusing for users with disabilities to understand their purpose."),
  ("document-title", "Your page is missing a title or has a generic title, which affects accessibility and SEO."),
  ("html-has-lang", "Your page doesn't specify its language, which can cause problems for screen readers and translation tools."),
  ("meta-viewport", "Your page isn't set up properly for mobile devices, which can cause accessibility and usability issues."),
  ("heading-order", "Your page headings aren't in the correct order, which can confuse screen reader users navigating your content."),
  ("skip-link", "Your page is missing a \"skip to main content\" link, making navigation difficult for keyboard users."),
  ("is-on-https", "Your website isn't using HTTPS, which means data sent between users and your site isn't encrypted and secure."),
  ("uses-http2", "Your server could use HTTP/2 to load your site faster and more efficiently."),
  ("no-vulnerable-libraries", "Your site is using outdated code libraries that have known security vulnerabilities."),
  ("external-anchors-use-rel-noopener", "Links to other websites should be set up more securely to protect your users."),
  ("geolocation-on-start", "Your site asks for location permission immediately, which can be annoying and suspicious to users."),
  ("notification-on-start", "Your site asks for notification permission immediately, which creates a poor user experience."),
  ("no-document-write", "Your site uses outdated JavaScript methods that can slow down page loading."),
  ("js-libraries", "Your site is using outdated JavaScript libraries that should be updated for better performance and security."),
  ("document-title", "Your page title is missing or not optimized, which hurts your search engine rankings."),
  ("meta-description", "Your page is missing a meta description, which is important for search engine results."),
  ("http-status-code", "Your page isn't returning the correct status code, which can hurt search engine indexing."),
  ("link-text", "Some of your links use generic text like \"click here\" instead of descriptive text that helps with SEO."),
  ("is-crawlable", "Search engines are being blocked from indexing your page, which will hurt your search rankings."),
  ("robots-txt", "Your robots.txt file has issues that might prevent search engines from properly indexing your site."),
  ("hreflang", "If your site serves multiple languages, it needs proper language tags for international SEO."),
  ("canonical", "Your page needs canonical tags to prevent duplicate content issues in search results."),
  ("font-size", "Some text on your page is too small for mobile users, which can hurt mobile search rankings."),
  ("tap-targets", "Some buttons and links on mobile are too small or too close together, making them hard to tap.")
]

/-- Property access on a JavaScript object literal with possibly duplicate
keys: the last declaration of a key wins. -/
def lookupLast (table : List (String × String)) (key : String) : Option String :=
  table.foldl (fun acc kv => if kv.1 = key then some kv.2 else acc) none

/-- `friendlyDescriptions[auditId] || originalDescription` (JavaScript `||`
falls through on a falsy — absent or empty — table value). -/
def getFriendlyDescription (auditId : String) (originalDescription : String) : String :=
  match lookupLast friendlyDescriptions auditId with
  | some t => if t = "" then originalDescription else t
  | none => originalDescription

/-! ## Data model and `extractApiRecommendations` (lines 81–186) -/

/-- The fields of an audit entry that the extractor reads, in the typed
data model of the specification (string-or-missing fields): `none` models
an absent (or `null`/`undefined`) field.  A wrong-shaped field value — a
truthy non-string — is outside this type; the dynamically-typed extension
`AuditEntryDyn` below represents it and exhibits the fault path it takes
through the source. -/
structure AuditEntry where
  score : Option ℚ
  title : Option String
  description : Option String
  displayValue : Option String
deriving DecidableEq

/-- The `audits` mapping of the Lighthouse result: audit identifier to
entry; `none` models an identifier that is absent (or bound to a nullish
value). -/
abbrev AuditMap := String → Option AuditEntry

/-- A recommendation record as pushed by the extractor. -/
structure Recommendation where
  title : String
  description : String
  learnMoreUrl : Option String
  impact : String
  score : ℤ
  displayValue : String
deriving DecidableEq

/-- The fixed allowlist `performanceAudits`. -/
def performanceAudits : List String := [
  "largest-contentful-paint", "first-contentful-paint", "speed-index",
  "cumulative-layout-shift", "total-blocking-time", "render-blocking-resources",
  "unused-css-rules", "unused-javascript", "modern-image-formats",
  "efficiently-encode-images", "offscreen-images", "unminified-css",
  "unminified-javascript", "server-response-time", "uses-text-compression",
  "uses-rel-preconnect", "uses-rel-preload", "font-display"
]

/-- The fixed allowlist `accessibilityAudits`. -/
def accessibilityAudits : List String := [
  "color-contrast", "image-alt", "label", "link-name",
  "button-name", "document-title", "html-has-lang",
  "meta-viewport", "heading-order", "skip-link",
  "focus-traps", "focusable-controls", "interactive-element-affordance"
]

/-- The fixed allowlist `bestPracticesAudits`. -/
def bestPracticesAudits : List String := [
  "is-on-https", "uses-http2", "no-vulnerable-libraries",
  "external-anchors-use-rel-noopener", "geolocation-on-start",
  "notification-on-start", "no-document-write", "js-libraries"
]

/-- The fixed allowlist `seoAudits`. -/
def seoAudits : List String := [
  "document-title", "meta-description", "http-status-code",
  "link-text", "is-crawlable", "robots-txt", "image-alt",
  "hreflang", "canonical", "font-size", "tap-targets"
]

/-- The per-identifier body of each `forEach` loop: the guard
`audit && audit.score !== null && audit.score < 1 && audit.title &&
audit.description` followed by the construction of the pushed record.
JavaScript truthiness makes an empty-string `title` or `description`
fail the guard, and an `undefined` score fails `audit.score < 1`. -/
def processAudit (audits : AuditMap) (auditId : String) : Option Recommendation :=
  match audits auditId with
  | some ⟨some score, some t, some d, dv⟩ =>
    if score < 1 ∧ t ≠ "" ∧ d ≠ "" then
      let friendlyDescription := getFriendlyDescription auditId d
      let processedDesc := processDescription friendlyDescription
      some { title := t
             description := descText processedDesc
             learnMoreUrl := descUrl processedDesc
             impact := getImpactLevel score
             score := jsRound (score * 100)
             displayValue := dv.getD "" }
    else none
  | _ => none

/-- The four output sequences of the extractor. -/
structure Recommendations where
  performance : List Recommendation
  accessibility : List Recommendation
  bestPractices : List Recommendation
  seo : List Recommendation
deriving DecidableEq

/-- `extractApiRecommendations`: each category's `forEach`-and-push loop
over its allowlist is the `filterMap` of `processAudit` in allowlist
order. -/
def extractApiRecommendations (audits : AuditMap) : Recommendations :=
  { performance := performanceAudits.filterMap (processAudit audits)
    accessibility := accessibilityAudits.filterMap (processAudit audits)
    bestPractices := bestPracticesAudits.filterMap (processAudit audits)
    seo := seoAudits.filterMap (processAudit audits) }

/-! ## Dynamically-typed extractor

The source is dynamically typed: an entry's `description` may hold any
JavaScript value, not only a string or a missing field.  A truthy
non-string passes the guard `audit.description`, survives the
friendly-table miss `friendlyDescriptions[auditId] || originalDescription`
verbatim, and then `description.match(urlRegex)` (line 201) throws a
`TypeError` that propagates out of `extractApiRecommendations`.  The
following definitions extend the embedding along exactly this axis;
`Except.error` models the thrown exception. -/

/-- A JavaScript value as far as the extractor's dynamic `description`
path observes it: nullish, a string, or a non-string primitive such as a
number. -/
inductive JsVal
  | vNull
  | vStr (s : String)
  | vNum (n : ℚ)
deriving DecidableEq

/-- JavaScript truthiness of a `JsVal` (`NaN` aside, a number is falsy
exactly when it is zero). -/
def jsTruthy : JsVal → Bool
  | .vNull => false
  | .vStr s => !(s = "")
  | .vNum n => !(n = 0)

/-- An audit entry whose `description` field carries an arbitrary
JavaScript value.  (`title` is kept string-or-missing; the fault path
under scrutiny is the `description.match` call.) -/
structure AuditEntryDyn where
  score : Option ℚ
  title : Option String
  description : JsVal
  displayValue : Option String

/-- An audit map over dynamically-typed entries. -/
abbrev AuditMapDyn := String → Option AuditEntryDyn

/-- `friendlyDescriptions[auditId] || originalDescription` when the
original description is an arbitrary value: a table miss (or empty table
text) passes the original value through verbatim, whatever its type. -/
def getFriendlyDescriptionDyn (auditId : String) (orig : JsVal) : JsVal :=
  match lookupLast friendlyDescriptions auditId with
  | some t => if t = "" then orig else JsVal.vStr t
  | none => orig

/-- `processDescription` on an arbitrary value: a falsy value returns `''`
at line 197; a string proceeds as `processDescription`; a truthy
non-string reaches `description.match(urlRegex)` at line 201 and throws
`TypeError`. -/
def processDescriptionDyn : JsVal → Except Unit ProcessedDesc
  | .vStr s => .ok (processDescription s)
  | .vNull => .ok (.str "")
  | .vNum n => if n = 0 then .ok (.str "") else .error ()

/-- The per-identifier loop body over dynamically-typed entries: the same
guard (with `audit.description` read as truthiness of the value), then
the friendly-description resolution and description processing, whose
thrown exception propagates. -/
def processAuditDyn (audits : AuditMapDyn) (auditId : String) :
    Except Unit (Option Recommendation) :=
  match audits auditId with
  | some ⟨some score, some t, d, dv⟩ =>
    if score < 1 ∧ t ≠ "" ∧ jsTruthy d = true then
      match processDescriptionDyn (getFriendlyDescriptionDyn auditId d) with
      | .error e => .error e
      | .ok processedDesc =>
        .ok (some { title := t
                    description := descText processedDesc
                    learnMoreUrl := descUrl processedDesc
                    impact := getImpactLevel score
                    score := jsRound (score * 100)
                    displayValue := dv.getD "" })
    else .ok none
  | _ => .ok none

/-- One category's `forEach`-and-push loop over dynamically-typed entries:
an exception thrown mid-loop aborts the whole extraction. -/
def extractCategoryDyn (audits : AuditMapDyn) :
    List String → Except Unit (List Recommendation)
  | [] => .ok []
  | auditId :: rest =>
    match processAuditDyn audits auditId with
    | .error e => .error e
    | .ok r =>
      match extractCategoryDyn audits rest with
      | .error e => .error e
      | .ok rs =>
        .ok (match r with
          | some rec => rec :: rs
          | none => rs)

/-- `extractApiRecommendations` over dynamically-typed entries: the four
category loops run in source order; a thrown `TypeError` propagates out
of the whole call. -/
def extractApiRecommendationsDyn (audits : AuditMapDyn) :
    Except Unit Recommendations :=
  match extractCategoryDyn audits performanceAudits with
  | .error e => .error e
  | .ok perf =>
    match extractCategoryDyn audits accessibilityAudits with
    | .error e => .error e
    | .ok acc =>
      match extractCategoryDyn audits bestPracticesAudits with
      | .error e => .error e
      | .ok bp =>
        match extractCategoryDyn audits seoAudits with
        | .error e => .error e
        | .ok seo => .ok ⟨perf, acc, bp, seo⟩

/-! ## Proxy forwarder (`functions/api/lighthouse.js`) -/

/-- The environment bindings the function reads:
`env.GOOGLE_PAGESPEED_API_KEY`, `none` when unset. -/
structure Env where
  googlePagespeedApiKey : Option String
deriving DecidableEq

/-- The destructured fields of the parsed request body. -/
structure RequestData where
  url : Option String
  strategy : Option String
  categories : Option (List String)
deriving DecidableEq

/-- The inbound request: its HTTP method and the outcome of
`request.json()` (`Except.error` models a body that fails to parse, which
in the source throws and lands in the outer `catch`). -/
structure ForwardRequest where
  method : String
  jsonBody : Except Unit RequestData

/-- The upstream `fetch` response as the function reads it:
the HTTP status, `errorData.error?.message` on the non-ok path (`none`
covers both a body that failed to parse — the inner `.catch(() => ({}))` —
and a missing field), and the outcome of `response.json()` on the ok path
(whose failure throws into the outer `catch`).  The payload is carried
verbatim as a string. -/
structure UpstreamResponse where
  status : Nat
  errorMessage : Option String
  jsonBody : Except Unit String

/-- `response.ok`: status in the 2xx success range. -/
def UpstreamResponse.ok (r : UpstreamResponse) : Bool :=
  200 ≤ r.status && r.status < 300

/-- The outcome of `await fetch(googleApiUrl)`: a response, or a rejected
promise (network failure), which throws into the outer `catch`. -/
inductive FetchResult
  | success (response : UpstreamResponse)
  | networkError

/-- A response body: `new Response(null, …)`, a `JSON.stringify({error})`
payload, or the upstream data forwarded verbatim. -/
inductive RespBody
  | empty
  | errorJson (error : String)
  | dataJson (data : String)
deriving DecidableEq

/-- The constructed `Response`: status (200 when the init omits it), body,
and headers. -/
structure HttpResponse where
  status : Nat
  body : RespBody
  headers : List (String × String)
deriving DecidableEq

/-- The `corsHeaders` object (lines 10–14). -/
def corsHeaders : List (String × String) := [
  ("Access-Control-Allow-Origin", "*"),
  ("Access-Control-Allow-Methods", "POST, OPTIONS"),
  ("Access-Control-Allow-Headers", "Content-Type")
]

/-- `{ ...corsHeaders, 'Content-Type': 'application/json' }`. -/
def jsonHeaders : List (String × String) :=
  corsHeaders ++ [("Content-Type", "application/json")]

/-- `onRequestPost`.  The outcome of the single upstream `fetch` is passed
in as `fetchResult`; the function performs exactly one upstream call per
invocation and holds no state across calls.  JavaScript truthiness makes
`!apiKey` and `!url` also trigger on empty strings. -/
def onRequestPost (env : Env) (request : ForwardRequest)
    (fetchResult : FetchResult) : HttpResponse :=
  if request.method = "OPTIONS" then
    { status := 200, body := .empty, headers := corsHeaders }
  else
    let apiKey := env.googlePagespeedApiKey
    if apiKey = none ∨ apiKey = some "" then
      { status := 500, body := .errorJson "API key not configured",
        headers := jsonHeaders }
    else
      match request.jsonBody with
      | .error _ =>
        { status := 500, body := .errorJson "Internal server error",
          headers := jsonHeaders }
      | .ok requestData =>
        if requestData.url = none ∨ requestData.url = some "" then
          { status := 400, body := .errorJson "URL is required",
            headers := jsonHeaders }
        else
          match fetchResult with
          | .networkError =>
            { status := 500, body := .errorJson "Internal server error",
              headers := jsonHeaders }
          | .success response =>
            if response.ok then
              match response.jsonBody with
              | .error _ =>
                { status := 500, body := .errorJson "Internal server error",
                  headers := jsonHeaders }
              | .ok data =>
                { status := 200, body := .dataJson data,
                  headers := jsonHeaders }
            else
              let errorMessage :=
                if response.status = 403 then
                  "API key is invalid or quota exceeded"
                else if response.status = 429 then
                  "API rate limit exceeded. Please try again later"
                else
                  match response.errorMessage with
                  | some m => if m = "" then "API error occurred" else m
                  | none => "API error occurred"
              { status := response.status, body := .errorJson errorMessage,
                headers := jsonHeaders }

/-- No suffix of `l` matches the URL pattern: scanning `l` finds nothing.
This is the verification-side characterisation of "the text contains no
occurrence of the URL pattern". -/
def noUrl (l : List Char) : Prop :=
  ∀ l₁ l₂ : List Char, l = l₁ ++ l₂ → matchUrlAt l₂ = none

/-! ## Scanner equations and supporting lemmas -/

theorem dropWhile_length_le (p : Char → Bool) (l : List Char) :
    (l.dropWhile p).length ≤ l.length := by
  induction l with
  | nil => simp
  | cons c l ih =>
    by_cases h : p c
    · rw [List.dropWhile_cons_of_pos h]
      simp only [List.length_cons]
      omega
    · rw [List.dropWhile_cons_of_neg h]

theorem matchUrlAt_rest_length {cs m rest} (h : matchUrlAt cs = some (m, rest)) :
    rest.length < cs.length := by
  rw [matchUrlAt.eq_def] at h
  split at h
  · split at h
    · exact absurd h (by simp)
    · rename_i tail _
      obtain ⟨rfl, rfl⟩ := Prod.mk.injEq .. ▸ Option.some.injEq .. ▸ h
      have := dropWhile_length_le urlAllowed tail
      simp only [List.length_cons]
      omega
  · split at h
    · exact absurd h (by simp)
    · rename_i tail _
      obtain ⟨rfl, rfl⟩ := Prod.mk.injEq .. ▸ Option.some.injEq .. ▸ h
      have := dropWhile_length_le urlAllowed tail
      simp only [List.length_cons]
      omega
  · exact absurd h (by simp)

theorem scanUrlsAux_nil (fuel : Nat) : scanUrlsAux fuel [] = ([], []) := by
  cases fuel <;> rfl

theorem scanUrlsAux_fuel (n : Nat) :
    ∀ (m : Nat) (cs : List Char), cs.length ≤ n → cs.length ≤ m →
      scanUrlsAux n cs = scanUrlsAux m cs := by
  induction n with
  | zero =>
    intro m cs hn _
    have : cs = [] := List.length_eq_zero.mp (Nat.le_zero.mp hn)
    subst this
    simp [scanUrlsAux_nil]
  | succ n ih =>
    intro m cs hn hm
    match m with
    | 0 =>
      have : cs = [] := List.length_eq_zero.mp (Nat.le_zero.mp hm)
      subst this
      simp [scanUrlsAux_nil]
    | m + 1 =>
      show scanUrlsAux (n + 1) cs = scanUrlsAux (m + 1) cs
      simp only [scanUrlsAux]
      cases hmatch : matchUrlAt cs with
      | some pr =>
        obtain ⟨mm, rest⟩ := pr
        have hlt := matchUrlAt_rest_length hmatch
        have h1 : rest.length ≤ n := by omega
        have h2 : rest.length ≤ m := by omega
        simp [ih m rest h1 h2]
      | none =>
        cases cs with
        | nil => rfl
        | cons c cs' =>
          have h1 : cs'.length ≤ n := by simp at hn; omega
          have h2 : cs'.length ≤ m := by simp at hm; omega
          simp [ih m cs' h1 h2]

theorem scanUrls_nil : scanUrls [] = ([], []) := rfl

theorem scanUrls_match {cs m rest} (h : matchUrlAt cs = some (m, rest)) :
    scanUrls cs = ((scanUrls rest).1, m :: (scanUrls rest).2) := by
  have hlt := matchUrlAt_rest_length h
  have hcs : cs ≠ [] := by rintro rfl; simp at hlt
  obtain ⟨n, hn⟩ : ∃ n, cs.length = n + 1 := by
    cases hlen : cs.length with
    | zero => exact absurd (List.length_eq_zero.mp hlen) hcs
    | succ n => exact ⟨n, rfl⟩
  unfold scanUrls
  rw [hn]
  simp only [scanUrlsAux, h]
  rw [scanUrlsAux_fuel n rest.length rest (by omega) (le_refl _)]

theorem scanUrls_nomatch {c : Char} {cs' : List Char}
    (h : matchUrlAt (c :: cs') = none) :
    scanUrls (c :: cs') = (c :: (scanUrls cs').1, (scanUrls cs').2) := by
  unfold scanUrls
  simp only [List.length_cons, scanUrlsAux, h]

theorem matchUrlAt_nil : matchUrlAt [] = none := rfl

theorem matchUrlAt_https (xs : List Char) :
    matchUrlAt (httpsChars ++ xs) =
      if xs.takeWhile urlAllowed = [] then none
      else some (httpsChars ++ xs.takeWhile urlAllowed, xs.dropWhile urlAllowed) := rfl

theorem matchUrlAt_http (xs : List Char) :
    matchUrlAt (httpChars ++ xs) =
      if xs.takeWhile urlAllowed = [] then none
      else some (httpChars ++ xs.takeWhile urlAllowed, xs.dropWhile urlAllowed) := rfl

theorem dropWhile_cons_false {p : Char → Bool} {l : List Char} {x : Char}
    {xs : List Char} (h : l.dropWhile p = x :: xs) : p x = false := by
  induction l with
  | nil => simp at h
  | cons c l ih =>
    by_cases hc : p c
    · rw [List.dropWhile_cons_of_pos hc] at h
      exact ih h
    · rw [List.dropWhile_cons_of_neg hc] at h
      injection h with h1 _
      subst h1
      simpa using hc

theorem matchUrlAt_some_shape {cs m rest : List Char}
    (h : matchUrlAt cs = some (m, rest)) :
    ∃ pre run, (pre = httpsChars ∨ pre = httpChars) ∧
      cs = pre ++ run ++ rest ∧ m = pre ++ run ∧ run ≠ [] ∧
      (∀ c ∈ run, urlAllowed c = true) ∧
      (rest = [] ∨ ∃ d rest', rest = d :: rest' ∧ urlAllowed d = false) := by
  rw [matchUrlAt.eq_def] at h
  split at h
  · rename_i tail
    split at h
    · exact absurd h (by simp)
    · rename_i hne
      rw [Option.some.injEq, Prod.mk.injEq] at h
      obtain ⟨hm, hrest⟩ := h
      refine ⟨httpsChars, tail.takeWhile urlAllowed, Or.inl rfl, ?_, hm.symm, hne, ?_, ?_⟩
      · rw [← hrest, List.append_assoc, List.takeWhile_append_dropWhile]
        rfl
      · intro c hc
        exact List.mem_takeWhile_imp hc
      · rw [← hrest]
        cases hd : tail.dropWhile urlAllowed with
        | nil => exact Or.inl rfl
        | cons d r => exact Or.inr ⟨d, r, rfl, dropWhile_cons_false hd⟩
  · rename_i tail
    split at h
    · exact absurd h (by simp)
    · rename_i hne
      rw [Option.some.injEq, Prod.mk.injEq] at h
      obtain ⟨hm, hrest⟩ := h
      refine ⟨httpChars, tail.takeWhile urlAllowed, Or.inr rfl, ?_, hm.symm, hne, ?_, ?_⟩
      · rw [← hrest, List.append_assoc, List.takeWhile_append_dropWhile]
        rfl
      · intro c hc
        exact List.mem_takeWhile_imp hc
      · rw [← hrest]
        cases hd : tail.dropWhile urlAllowed with
        | nil => exact Or.inl rfl
        | cons d r => exact Or.inr ⟨d, r, rfl, dropWhile_cons_false hd⟩
  · exact absurd h (by simp)

theorem matchUrlAt_of_start {pre : List Char}
    (hpre : pre = httpsChars ∨ pre = httpChars) {a : Char}
    (ha : urlAllowed a = true) (xs : List Char) :
    matchUrlAt (pre ++ a :: xs) ≠ none := by
  rcases hpre with rfl | rfl
  · rw [matchUrlAt_https, List.takeWhile_cons_of_pos ha]
    simp
  · rw [matchUrlAt_http, List.takeWhile_cons_of_pos ha]
    simp

theorem matchUrlAt_start_of_some {cs m rest : List Char}
    (h : matchUrlAt cs = some (m, rest)) :
    ∃ pre a xs, (pre = httpsChars ∨ pre = httpChars) ∧
      urlAllowed a = true ∧ cs = pre ++ a :: xs := by
  obtain ⟨pre, run, hpre, hcs, -, hne, hall, -⟩ := matchUrlAt_some_shape h
  cases run with
  | nil => exact absurd rfl hne
  | cons a run' =>
    refine ⟨pre, a, run' ++ rest, hpre, hall a (by simp), ?_⟩
    rw [hcs]
    simp

theorem matchUrlAt_head_h {c : Char} {l : List Char}
    (h : matchUrlAt (c :: l) ≠ none) : c = 'h' := by
  cases hm : matchUrlAt (c :: l) with
  | none => exact absurd hm h
  | some pr =>
    obtain ⟨m1, r1⟩ := pr
    obtain ⟨pre, a, xs, hpre, -, hcs⟩ := matchUrlAt_start_of_some hm
    rcases hpre with rfl | rfl
    · rw [show httpsChars ++ a :: xs =
        'h' :: ('t' :: 't' :: 'p' :: 's' :: ':' :: '/' :: '/' :: a :: xs) from rfl] at hcs
      exact (List.cons.injEq .. ▸ hcs).1
    · rw [show httpChars ++ a :: xs =
        'h' :: ('t' :: 't' :: 'p' :: ':' :: '/' :: '/' :: a :: xs) from rfl] at hcs
      exact (List.cons.injEq .. ▸ hcs).1

theorem matchUrlAt_stop {d : Char} {l : List Char} (hd : urlAllowed d = false) :
    matchUrlAt (d :: l) = none := by
  by_contra h
  have hh := matchUrlAt_head_h h
  subst hh
  have : urlAllowed 'h' = true := by decide
  rw [this] at hd
  exact absurd hd (by simp)

theorem kept_pull_aux (n : Nat) :
    ∀ cs p : List Char, cs.length ≤ n → p ≠ [] →
      (∀ c ∈ p, urlAllowed c = true) →
      (∃ t, (scanUrls cs).1 = p ++ t) → ∃ t', cs = p ++ t' := by
  induction n with
  | zero =>
    intro cs p hn hp _ hpre
    have : cs = [] := List.length_eq_zero.mp (Nat.le_zero.mp hn)
    subst this
    rw [scanUrls_nil] at hpre
    obtain ⟨t, ht⟩ := hpre
    cases p with
    | nil => exact absurd rfl hp
    | cons a p' => simp at ht
  | succ n ih =>
    intro cs p hn hp hall hpre
    cases hmatch : matchUrlAt cs with
    | some pr =>
      obtain ⟨m, rest⟩ := pr
      rw [scanUrls_match hmatch] at hpre
      have hlt := matchUrlAt_rest_length hmatch
      obtain ⟨-, -, -, -, -, -, -, hrest⟩ :=
        matchUrlAt_some_shape hmatch
      rcases hrest with rfl | ⟨d, rest', rfl, hd⟩
      · rw [scanUrls_nil] at hpre
        obtain ⟨t, ht⟩ := hpre
        cases p with
        | nil => exact absurd rfl hp
        | cons a p' => simp at ht
      · rw [scanUrls_nomatch (matchUrlAt_stop hd)] at hpre
        obtain ⟨t, ht⟩ := hpre
        cases p with
        | nil => exact absurd rfl hp
        | cons a p' =>
          rw [List.cons_append, List.cons.injEq] at ht
          have ha : urlAllowed a = true := hall a (by simp)
          exact absurd (ht.1 ▸ hd) (by simp [ha])
    | none =>
      cases cs with
      | nil =>
        rw [scanUrls_nil] at hpre
        obtain ⟨t, ht⟩ := hpre
        cases p with
        | nil => exact absurd rfl hp
        | cons a p' => simp at ht
      | cons c cs' =>
        rw [scanUrls_nomatch hmatch] at hpre
        obtain ⟨t, ht⟩ := hpre
        cases p with
        | nil => exact absurd rfl hp
        | cons a p' =>
          rw [List.cons_append, List.cons.injEq] at ht
          obtain ⟨rfl, ht2⟩ := ht
          cases p' with
          | nil =>
            exact ⟨cs', rfl⟩
          | cons b p'' =>
            have hlen : cs'.length ≤ n := by
              simp only [List.length_cons] at hn
              omega
            obtain ⟨t', ht'⟩ := ih cs' (b :: p'') hlen (by simp)
              (fun x hx => hall x (by simp [hx])) ⟨t, ht2⟩
            exact ⟨t', by simp [ht']⟩

theorem kept_pull {cs p : List Char} (hp : p ≠ [])
    (hall : ∀ c ∈ p, urlAllowed c = true)
    (hpre : ∃ t, (scanUrls cs).1 = p ++ t) : ∃ t', cs = p ++ t' :=
  kept_pull_aux cs.length cs p (le_refl _) hp hall hpre

theorem kept_noUrl_aux (n : Nat) :
    ∀ cs : List Char, cs.length ≤ n → noUrl (scanUrls cs).1 := by
  induction n with
  | zero =>
    intro cs hn
    have : cs = [] := List.length_eq_zero.mp (Nat.le_zero.mp hn)
    subst this
    rw [scanUrls_nil]
    intro l₁ l₂ h
    have : l₂ = [] := by
      cases l₁ <;> simp_all
    rw [this]
    exact matchUrlAt_nil
  | succ n ih =>
    intro cs hn
    cases hmatch : matchUrlAt cs with
    | some pr =>
      obtain ⟨m, rest⟩ := pr
      rw [scanUrls_match hmatch]
      have hlt := matchUrlAt_rest_length hmatch
      exact ih rest (by omega)
    | none =>
      cases cs with
      | nil =>
        rw [scanUrls_nil]
        intro l₁ l₂ h
        have : l₂ = [] := by cases l₁ <;> simp_all
        rw [this]
        exact matchUrlAt_nil
      | cons c cs' =>
        rw [scanUrls_nomatch hmatch]
        have hlen : cs'.length ≤ n := by
          simp only [List.length_cons] at hn
          omega
        intro l₁ l₂ h
        cases l₁ with
        | cons x l₁' =>
          rw [List.cons_append, List.cons.injEq] at h
          exact ih cs' hlen l₁' l₂ h.2
        | nil =>
          rw [List.nil_append] at h
          subst h
          cases hm2 : matchUrlAt (c :: (scanUrls cs').1) with
          | none => rfl
          | some pr2 =>
            exfalso
            obtain ⟨m2, r2⟩ := pr2
            obtain ⟨pre, a, xs, hpre, ha, hcs⟩ :=
              matchUrlAt_start_of_some hm2
            have hpre_ne : pre ≠ [] := by
              rcases hpre with rfl | rfl <;> simp [httpsChars, httpChars]
            obtain ⟨c0, pre', rfl⟩ : ∃ c0 pre', pre = c0 :: pre' := by
              cases pre with
              | nil => exact absurd rfl hpre_ne
              | cons c0 pre' => exact ⟨c0, pre', rfl⟩
            rw [List.cons_append, List.cons.injEq] at hcs
            obtain ⟨rfl, hk⟩ := hcs
            have hallpre : ∀ x ∈ pre' ++ [a], urlAllowed x = true := by
              intro x hx
              rw [List.mem_append] at hx
              rcases hx with hx | hx
              · rcases hpre with h5 | h5
                · have h6 : c :: pre' =
                      'h' :: 't' :: 't' :: 'p' :: 's' :: ':' :: '/' :: '/' :: ([] : List Char) := h5
                  rw [List.cons.injEq] at h6
                  obtain ⟨-, rfl⟩ := h6
                  have hy : ∀ y ∈ ('t' :: 't' :: 'p' :: 's' :: ':' :: '/' :: '/' :: ([] : List Char)),
                      urlAllowed y = true := by decide
                  exact hy x hx
                · have h6 : c :: pre' =
                      'h' :: 't' :: 't' :: 'p' :: ':' :: '/' :: '/' :: ([] : List Char) := h5
                  rw [List.cons.injEq] at h6
                  obtain ⟨-, rfl⟩ := h6
                  have hy : ∀ y ∈ ('t' :: 't' :: 'p' :: ':' :: '/' :: '/' :: ([] : List Char)),
                      urlAllowed y = true := by decide
                  exact hy x hx
              · rw [List.mem_singleton] at hx
                rw [hx]
                exact ha
            have hkp : ∃ t, (scanUrls cs').1 = (pre' ++ [a]) ++ t := by
              refine ⟨xs, ?_⟩
              rw [hk]
              simp
            obtain ⟨t', ht'⟩ := kept_pull (by simp) hallpre hkp
            have : matchUrlAt (c :: cs') ≠ none := by
              have hshape : c :: cs' = (c :: pre') ++ a :: t' := by
                rw [List.cons_append, ht']
                simp
              rw [hshape]
              have hpre2 : (c :: pre') = httpsChars ∨ (c :: pre') = httpChars := hpre
              exact matchUrlAt_of_start hpre2 ha t'
            exact this hmatch

theorem kept_noUrl (cs : List Char) : noUrl (scanUrls cs).1 :=
  kept_noUrl_aux cs.length cs (le_refl _)

theorem scan_of_noUrl : ∀ cs : List Char, noUrl cs → scanUrls cs = (cs, []) := by
  intro cs
  induction cs with
  | nil => intro _; exact scanUrls_nil
  | cons c cs' ih =>
    intro h
    have hm : matchUrlAt (c :: cs') = none := h [] (c :: cs') rfl
    rw [scanUrls_nomatch hm]
    have h' : noUrl cs' := by
      intro l₁ l₂ hsplit
      exact h (c :: l₁) l₂ (by rw [hsplit]; rfl)
    rw [ih h']

theorem noUrl_of_no_matches :
    ∀ cs : List Char, (scanUrls cs).2 = [] → noUrl cs ∧ (scanUrls cs).1 = cs := by
  intro cs
  induction cs with
  | nil =>
    intro _
    rw [scanUrls_nil]
    refine ⟨?_, rfl⟩
    intro l₁ l₂ h
    cases l₁ with
    | nil =>
      rw [List.nil_append] at h
      rw [← h]
      exact matchUrlAt_nil
    | cons x l₁' => simp at h
  | cons c cs' ih =>
    intro h2
    cases hmatch : matchUrlAt (c :: cs') with
    | some pr =>
      obtain ⟨m, rest⟩ := pr
      rw [scanUrls_match hmatch] at h2
      simp at h2
    | none =>
      rw [scanUrls_nomatch hmatch] at h2 ⊢
      obtain ⟨hnu, hk⟩ := ih h2
      refine ⟨?_, by rw [hk]⟩
      intro l₁ l₂ hsplit
      cases l₁ with
      | nil =>
        rw [List.nil_append] at hsplit
        rw [← hsplit]
        exact hmatch
      | cons x l₁' =>
        rw [List.cons_append, List.cons.injEq] at hsplit
        exact hnu l₁' l₂ hsplit.2

theorem noUrl_append_inner {a m b : List Char}
    (h : noUrl (a ++ m ++ b)) : noUrl m := by
  intro m₁ m₂ hsplit
  cases hm : matchUrlAt m₂ with
  | none => rfl
  | some pr =>
    exfalso
    obtain ⟨m3, r3⟩ := pr
    obtain ⟨pre, x, xs, hpre, hx, hm2⟩ :=
      matchUrlAt_start_of_some hm
    have hbig : a ++ m ++ b = (a ++ m₁) ++ (pre ++ x :: (xs ++ b)) := by
      rw [hsplit, hm2]
      simp
    have := h (a ++ m₁) (pre ++ x :: (xs ++ b)) hbig
    exact matchUrlAt_of_start hpre hx (xs ++ b) this

theorem dropWhile_suffix_decomp (p : Char → Bool) (l : List Char) :
    l = l.takeWhile p ++ l.dropWhile p :=
  (List.takeWhile_append_dropWhile p l).symm

theorem reverse_dropWhile_decomp (p : Char → Bool) (l : List Char) :
    l = (l.reverse.dropWhile p).reverse ++ (l.reverse.takeWhile p).reverse := by
  have h := List.takeWhile_append_dropWhile p l.reverse
  have h2 : l.reverse.reverse =
      (l.reverse.takeWhile p ++ l.reverse.dropWhile p).reverse := by rw [h]
  rw [List.reverse_reverse, List.reverse_append] at h2
  exact h2

theorem jsTrimList_infix (l : List Char) :
    ∃ a b, l = a ++ jsTrimList l ++ b := by
  refine ⟨l.takeWhile jsSpace,
    ((l.dropWhile jsSpace).reverse.takeWhile jsSpace).reverse, ?_⟩
  unfold jsTrimList
  conv_lhs => rw [dropWhile_suffix_decomp jsSpace l]
  rw [List.append_assoc]
  congr 1
  exact reverse_dropWhile_decomp jsSpace (l.dropWhile jsSpace)

theorem stripTrailingList_decomp (l : List Char) :
    ∃ b, l = stripTrailingList l ++ b := by
  exact ⟨(l.reverse.takeWhile trailingClass).reverse,
    reverse_dropWhile_decomp trailingClass l⟩

theorem dropWhile_eq_self_of_head {p : Char → Bool} {l : List Char}
    (h : ∀ x xs, l = x :: xs → p x = false) : l.dropWhile p = l := by
  cases l with
  | nil => rfl
  | cons x xs => exact List.dropWhile_cons_of_neg (by simp [h x xs rfl])

theorem dropWhile_dropWhile (p : Char → Bool) (l : List Char) :
    (l.dropWhile p).dropWhile p = l.dropWhile p := by
  apply dropWhile_eq_self_of_head
  intro x xs h
  exact dropWhile_cons_false h

theorem dropWhile_eq_cons_self {p : Char → Bool} {x : Char} {t : List Char}
    (h : (x :: t).dropWhile p = x :: t) : p x = false := by
  by_contra hp
  rw [List.dropWhile_cons_of_pos (by simpa using hp)] at h
  have hlen := congrArg List.length h
  have hle := dropWhile_length_le p t
  simp only [List.length_cons] at hlen
  omega

theorem trim_head_not_space {l : List Char} {x : Char} {xs : List Char}
    (h : jsTrimList l = x :: xs) : jsSpace x = false := by
  have hval : l.dropWhile jsSpace =
      jsTrimList l ++ ((l.dropWhile jsSpace).reverse.takeWhile jsSpace).reverse :=
    reverse_dropWhile_decomp jsSpace (l.dropWhile jsSpace)
  rw [h] at hval
  have hself : (l.dropWhile jsSpace).dropWhile jsSpace = l.dropWhile jsSpace :=
    dropWhile_dropWhile jsSpace l
  rw [hval, List.cons_append] at hself
  exact dropWhile_eq_cons_self hself

theorem jsTrimList_idem (l : List Char) :
    jsTrimList (jsTrimList l) = jsTrimList l := by
  have hA : (jsTrimList l).dropWhile jsSpace = jsTrimList l := by
    apply dropWhile_eq_self_of_head
    intro x xs hx
    exact trim_head_not_space hx
  show (((jsTrimList l).dropWhile jsSpace).reverse.dropWhile jsSpace).reverse = jsTrimList l
  rw [hA]
  have hrev : (jsTrimList l).reverse = (l.dropWhile jsSpace).reverse.dropWhile jsSpace := by
    unfold jsTrimList
    rw [List.reverse_reverse]
  rw [hrev, dropWhile_dropWhile, ← hrev, List.reverse_reverse]

theorem toList_asString (l : List Char) : (List.asString l).toList = l := rfl

theorem asString_toList (s : String) : s.toList.asString = s := rfl

theorem head?_dropWhile_false {p : Char → Bool} {l : List Char} {c : Char}
    (h : (l.dropWhile p).head? = some c) : p c = false := by
  cases hd : l.dropWhile p with
  | nil =>
    rw [hd] at h
    simp at h
  | cons x xs =>
    rw [hd] at h
    rw [List.head?_cons, Option.some.injEq] at h
    rw [← h]
    exact dropWhile_cons_false hd

theorem stripTrailing_getLast {l : List Char} {c : Char}
    (h : (stripTrailingList l).getLast? = some c) : trailingClass c = false := by
  unfold stripTrailingList at h
  rw [List.getLast?_reverse] at h
  exact head?_dropWhile_false h

theorem jsTrimList_eq_self {l : List Char}
    (h1 : ∀ x xs, l = x :: xs → jsSpace x = false)
    (h2 : ∀ c, l.getLast? = some c → jsSpace c = false) :
    jsTrimList l = l := by
  unfold jsTrimList
  rw [dropWhile_eq_self_of_head h1]
  have hr : l.reverse.dropWhile jsSpace = l.reverse := by
    apply dropWhile_eq_self_of_head
    intro x xs hx
    apply h2
    rw [← List.head?_reverse, hx]
    rfl
  rw [hr, List.reverse_reverse]

theorem stripTrailingList_head {l : List Char} {x : Char} {xs : List Char}
    (h : stripTrailingList l = x :: xs) : ∃ t, l = x :: t := by
  obtain ⟨b, hb⟩ := stripTrailingList_decomp l
  rw [h] at hb
  exact ⟨xs ++ b, by rw [hb]; rfl⟩

theorem trailingClass_of_space {c : Char} (h : jsSpace c = true) :
    trailingClass c = true := by
  simp [trailingClass, h]

theorem processDescription_of_matches {s u : String} {us : List String}
    (hs : jsMatchAll s = u :: us) :
    processDescription s =
      .obj (jsTrim (stripTrailing (jsTrim (replaceUrls s)))) u := by
  have hne : s ≠ "" := by
    rintro rfl
    rw [show jsMatchAll "" = [] from rfl] at hs
    exact absurd hs (by simp)
  unfold processDescription
  rw [if_neg hne, hs]

/-! ## Claim theorems -/

/-- C2: the impact level of a recommendation is a pure function of the
audit entry's score with exact boundaries: score 0 gives High; scores
strictly between 0 and 0.5 give Medium (in particular 0.49); scores from
0.5 up to (but excluding) 1 give Low (in particular 0.5). -/
theorem getImpactLevel_boundaries (score : ℚ) :
    (score = 0 → getImpactLevel score = "High") ∧
    (0 < score → score < 1/2 → getImpactLevel score = "Medium") ∧
    (1/2 ≤ score → score < 1 → getImpactLevel score = "Low") ∧
    getImpactLevel (49/100) = "Medium" ∧
    getImpactLevel (1/2) = "Low" := by
  refine ⟨?_, ?_, ?_, ?_, ?_⟩
  · intro h
    rw [getImpactLevel, if_pos h]
  · intro h1 h2
    rw [getImpactLevel, if_neg (ne_of_gt h1), if_pos h2]
  · intro h1 h2
    have h0 : (0 : ℚ) < score := lt_of_lt_of_le (by norm_num) h1
    rw [getImpactLevel, if_neg (ne_of_gt h0), if_neg (not_lt.mpr h1)]
  · norm_num [getImpactLevel]
  · norm_num [getImpactLevel]

/-- Witness for C2 at the concrete scores 0, 1/4, 3/4. -/
theorem getImpactLevel_boundaries_witness :
    getImpactLevel 0 = "High" ∧ getImpactLevel (1/4) = "Medium" ∧
    getImpactLevel (3/4) = "Low" :=
  ⟨(getImpactLevel_boundaries 0).1 rfl,
   (getImpactLevel_boundaries (1/4)).2.1 (by norm_num) (by norm_num),
   (getImpactLevel_boundaries (3/4)).2.2.1 (by norm_num) (by norm_num)⟩

/-- C9: an OPTIONS request is answered (status 200) with the three CORS
headers and no body. -/
theorem options_preflight (env : Env) (request : ForwardRequest)
    (fetchResult : FetchResult) (h : request.method = "OPTIONS") :
    (onRequestPost env request fetchResult).body = RespBody.empty ∧
    (onRequestPost env request fetchResult).status = 200 ∧
    (onRequestPost env request fetchResult).headers = corsHeaders ∧
    ("Access-Control-Allow-Origin", "*") ∈
      (onRequestPost env request fetchResult).headers ∧
    ("Access-Control-Allow-Methods", "POST, OPTIONS") ∈
      (onRequestPost env request fetchResult).headers ∧
    ("Access-Control-Allow-Headers", "Content-Type") ∈
      (onRequestPost env request fetchResult).headers := by
  unfold onRequestPost
  rw [if_pos h]
  exact ⟨rfl, rfl, rfl, by simp [corsHeaders], by simp [corsHeaders],
    by simp [corsHeaders]⟩

/-- Witness for C9: a concrete OPTIONS request. -/
theorem options_preflight_witness :
    (onRequestPost ⟨none⟩ ⟨"OPTIONS", Except.error ()⟩
      FetchResult.networkError).body = RespBody.empty :=
  (options_preflight ⟨none⟩ ⟨"OPTIONS", Except.error ()⟩
    FetchResult.networkError rfl).1

/-- C10: every branch of the handler carries
`Access-Control-Allow-Origin: *`, and every branch with a body also sets
`Content-Type: application/json`. -/
theorem cors_on_every_branch (env : Env) (request : ForwardRequest)
    (fetchResult : FetchResult) :
    ("Access-Control-Allow-Origin", "*") ∈
      (onRequestPost env request fetchResult).headers ∧
    ((onRequestPost env request fetchResult).body ≠ RespBody.empty →
      ("Content-Type", "application/json") ∈
        (onRequestPost env request fetchResult).headers) := by
  have hmem1 : ("Access-Control-Allow-Origin", "*") ∈ jsonHeaders := by
    simp [jsonHeaders, corsHeaders]
  have hmem2 : ("Content-Type", "application/json") ∈ jsonHeaders := by
    simp [jsonHeaders]
  constructor
  · unfold onRequestPost
    dsimp only
    repeat' split
    all_goals first | exact hmem1 | simp [corsHeaders]
  · unfold onRequestPost
    dsimp only
    repeat' split
    all_goals intro hb
    all_goals first | exact absurd rfl hb | exact hmem2

/-- Witness for C10 at a concrete request with a body-carrying branch. -/
theorem cors_on_every_branch_witness :
    ("Content-Type", "application/json") ∈
      (onRequestPost ⟨none⟩ ⟨"POST", Except.error ()⟩
        FetchResult.networkError).headers :=
  (cors_on_every_branch ⟨none⟩ ⟨"POST", Except.error ()⟩
    FetchResult.networkError).2 (by decide)

/-- C3: a friendly description resolved from the flat table does not
depend on the entry's own description (hence is the same in every
category); for the duplicate table key `document-title` resolution yields
the last-declared (SEO) text even though the earlier accessibility text is
also in the table; an identifier with no table entry falls back to the
entry's own description verbatim. -/
theorem friendly_description_resolution :
    (∀ auditId v d₁ d₂, lookupLast friendlyDescriptions auditId = some v →
      v ≠ "" →
      getFriendlyDescription auditId d₁ = getFriendlyDescription auditId d₂) ∧
    (∀ d, getFriendlyDescription "document-title" d =
      "Your page title is missing or not optimized, which hurts your search engine rankings.") ∧
    ("document-title",
      "Your page is missing a title or has a generic title, which affects accessibility and SEO.")
      ∈ friendlyDescriptions ∧
    (∀ auditId d, lookupLast friendlyDescriptions auditId = none →
      getFriendlyDescription auditId d = d) := by
  refine ⟨?_, ?_, ?_, ?_⟩
  · intro auditId v d₁ d₂ h hv
    simp only [getFriendlyDescription, h]
    rw [if_neg hv, if_neg hv]
  · intro d
    have h : lookupLast friendlyDescriptions "document-title" =
        some "Your page title is missing or not optimized, which hurts your search engine rankings." := by
      decide
    simp only [getFriendlyDescription, h]
    rw [if_neg (by decide)]
  · decide
  · intro auditId d h
    simp only [getFriendlyDescription, h]

/-- Witness for C3: resolution of the duplicate key is independent of the
entry's own description. -/
theorem friendly_description_resolution_witness :
    getFriendlyDescription "document-title" "a" =
      getFriendlyDescription "document-title" "b" :=
  friendly_description_resolution.1 "document-title"
    "Your page title is missing or not optimized, which hurts your search engine rankings."
    "a" "b" (by decide) (by decide)

/-- C6: the forwarder's result follows the error taxonomy exactly: a
missing (or empty) credential gives 500 `API key not configured`; a parsed
body without a `url` gives 400; an upstream non-success is relayed with
the upstream status code and the 403/429/other message mapping; a
forwarder-internal fault (unparsable body, network failure) gives 500.
The handler consumes the outcome of exactly one upstream call, so no retry
occurs. -/
theorem forwarder_error_taxonomy (env : Env) (request : ForwardRequest)
    (fetchResult : FetchResult) (hm : request.method ≠ "OPTIONS") :
    ((env.googlePagespeedApiKey = none ∨ env.googlePagespeedApiKey = some "") →
      onRequestPost env request fetchResult =
        { status := 500, body := .errorJson "API key not configured",
          headers := jsonHeaders }) ∧
    (¬(env.googlePagespeedApiKey = none ∨ env.googlePagespeedApiKey = some "") →
      request.jsonBody = Except.error () →
      onRequestPost env request fetchResult =
        { status := 500, body := .errorJson "Internal server error",
          headers := jsonHeaders }) ∧
    (∀ requestData : RequestData,
      ¬(env.googlePagespeedApiKey = none ∨ env.googlePagespeedApiKey = some "") →
      request.jsonBody = Except.ok requestData →
      (requestData.url = none ∨ requestData.url = some "") →
      onRequestPost env request fetchResult =
        { status := 400, body := .errorJson "URL is required",
          headers := jsonHeaders }) ∧
    (∀ requestData : RequestData,
      ¬(env.googlePagespeedApiKey = none ∨ env.googlePagespeedApiKey = some "") →
      request.jsonBody = Except.ok requestData →
      ¬(requestData.url = none ∨ requestData.url = some "") →
      fetchResult = FetchResult.networkError →
      onRequestPost env request fetchResult =
        { status := 500, body := .errorJson "Internal server error",
          headers := jsonHeaders }) ∧
    (∀ (requestData : RequestData) (response : UpstreamResponse),
      ¬(env.googlePagespeedApiKey = none ∨ env.googlePagespeedApiKey = some "") →
      request.jsonBody = Except.ok requestData →
      ¬(requestData.url = none ∨ requestData.url = some "") →
      fetchResult = FetchResult.success response →
      response.ok = false →
      (onRequestPost env request fetchResult).status = response.status ∧
      (onRequestPost env request fetchResult).headers = jsonHeaders ∧
      (response.status = 403 →
        (onRequestPost env request fetchResult).body =
          .errorJson "API key is invalid or quota exceeded") ∧
      (response.status ≠ 403 → response.status = 429 →
        (onRequestPost env request fetchResult).body =
          .errorJson "API rate limit exceeded. Please try again later") ∧
      (response.status ≠ 403 → response.status ≠ 429 →
        (∀ m, response.errorMessage = some m → m ≠ "" →
          (onRequestPost env request fetchResult).body = .errorJson m) ∧
        ((response.errorMessage = none ∨ response.errorMessage = some "") →
          (onRequestPost env request fetchResult).body =
            .errorJson "API error occurred"))) := by
  refine ⟨?_, ?_, ?_, ?_, ?_⟩
  · intro hk
    unfold onRequestPost
    rw [if_neg hm]
    dsimp only
    rw [if_pos hk]
  · intro hk hbody
    unfold onRequestPost
    rw [if_neg hm]
    dsimp only
    rw [if_neg hk, hbody]
  · intro requestData hk hbody hurl
    unfold onRequestPost
    rw [if_neg hm]
    dsimp only
    rw [if_neg hk, hbody]
    dsimp only
    rw [if_pos hurl]
  · intro requestData hk hbody hurl hfetch
    unfold onRequestPost
    rw [if_neg hm]
    dsimp only
    rw [if_neg hk, hbody]
    dsimp only
    rw [if_neg hurl, hfetch]
  · intro requestData response hk hbody hurl hfetch hok
    have hbase : onRequestPost env request fetchResult =
        { status := response.status,
          body := .errorJson
            (if response.status = 403 then "API key is invalid or quota exceeded"
             else if response.status = 429 then
               "API rate limit exceeded. Please try again later"
             else match response.errorMessage with
               | some m => if m = "" then "API error occurred" else m
               | none => "API error occurred"),
          headers := jsonHeaders } := by
      unfold onRequestPost
      rw [if_neg hm]
      dsimp only
      rw [if_neg hk, hbody]
      dsimp only
      rw [if_neg hurl, hfetch]
      dsimp only
      rw [if_neg (by simp [hok])]
    rw [hbase]
    refine ⟨rfl, rfl, ?_, ?_, ?_⟩
    · intro h403
      simp only [if_pos h403]
    · intro h403 h429
      simp only [if_neg h403, if_pos h429]
    · intro h403 h429
      constructor
      · intro m hmsg hne
        simp only [if_neg h403, if_neg h429, hmsg, if_neg hne]
      · intro hmsg
        rcases hmsg with hmsg | hmsg
        · simp only [if_neg h403, if_neg h429, hmsg]
        · simp [if_neg h403, if_neg h429, hmsg]

/-- Witness for C6: a concrete upstream 403 is relayed as 403 with the
credential message. -/
theorem forwarder_error_taxonomy_witness :
    (onRequestPost ⟨some "k"⟩ ⟨"POST", Except.ok ⟨some "https://x.test", none, none⟩⟩
      (FetchResult.success ⟨403, none, Except.ok "d"⟩)).status = 403 ∧
    (onRequestPost ⟨some "k"⟩ ⟨"POST", Except.ok ⟨some "https://x.test", none, none⟩⟩
      (FetchResult.success ⟨403, none, Except.ok "d"⟩)).body =
      RespBody.errorJson "API key is invalid or quota exceeded" := by
  have h := (forwarder_error_taxonomy ⟨some "k"⟩
    ⟨"POST", Except.ok ⟨some "https://x.test", none, none⟩⟩
    (FetchResult.success ⟨403, none, Except.ok "d"⟩) (by decide)).2.2.2.2
    ⟨some "https://x.test", none, none⟩ ⟨403, none, Except.ok "d"⟩
    (by decide) rfl (by decide) rfl (by decide)
  exact ⟨h.1, h.2.2.1 rfl⟩

/-- C1: within each category the extractor appends, in allowlist order,
exactly one recommendation per qualifying identifier (the `filterMap`
equations), and an identifier yields no recommendation exactly when it is
absent from the audit map, its score is null, its score is at least 1, or
its title or description is missing (absent or empty, which JavaScript
truthiness treats alike); in every other case `processAudit` is `some`,
so exactly one recommendation is appended for that category/identifier
pair. -/
theorem extract_skip_iff (audits : AuditMap) (auditId : String) :
    ((extractApiRecommendations audits).performance =
       performanceAudits.filterMap (processAudit audits) ∧
     (extractApiRecommendations audits).accessibility =
       accessibilityAudits.filterMap (processAudit audits) ∧
     (extractApiRecommendations audits).bestPractices =
       bestPracticesAudits.filterMap (processAudit audits) ∧
     (extractApiRecommendations audits).seo =
       seoAudits.filterMap (processAudit audits)) ∧
    (processAudit audits auditId = none ↔
      audits auditId = none ∨
      ∃ e, audits auditId = some e ∧
        (e.score = none ∨ (∃ s, e.score = some s ∧ 1 ≤ s) ∨
         e.title = none ∨ e.title = some "" ∨
         e.description = none ∨ e.description = some "")) := by
  refine ⟨⟨rfl, rfl, rfl, rfl⟩, ?_⟩
  cases he : audits auditId with
  | none => simp [processAudit, he]
  | some e =>
    obtain ⟨os, ot, od, dv⟩ := e
    cases os with
    | none => simp [processAudit, he]
    | some sc =>
      cases ot with
      | none => simp [processAudit, he]
      | some t =>
        cases od with
        | none => simp [processAudit, he]
        | some d =>
          by_cases h1 : sc < 1
          · by_cases h2 : t = ""
            · subst h2
              simp [processAudit, he]
            · by_cases h3 : d = ""
              · subst h3
                simp [processAudit, he, h2]
              · have h1' : ¬(1 : ℚ) ≤ sc := not_le.mpr h1
                simp [processAudit, he, h1, h2, h3, h1']
          · have h1' : (1 : ℚ) ≤ sc := not_lt.mp h1
            simp [processAudit, he, h1, h1']

theorem filterMap_eq_filter_filterMap (f : String → Option Recommendation)
    (l : List String) :
    l.filterMap f = (l.filter (fun a => (f a).isSome)).filterMap f := by
  induction l with
  | nil => rfl
  | cons a l ih =>
    cases hf : f a with
    | none =>
      rw [List.filterMap_cons_none hf, List.filter_cons,
        if_neg (by simp [hf]), ih]
    | some b =>
      rw [List.filterMap_cons_some hf, List.filter_cons,
        if_pos (by simp [hf]), List.filterMap_cons_some hf, ih]

/-- C7: per category, the output sequence is produced by walking the fixed
allowlist in declared order and keeping the qualifying identifiers: it
equals the `filterMap` over the allowlist-ordered sublist of qualifying
identifiers, and that sublist — hence the ordering — depends only on which
identifiers qualify, not on the entries' scores. -/
theorem recommendations_follow_allowlist_order (audits : AuditMap) :
    ((extractApiRecommendations audits).performance =
       (performanceAudits.filter
         (fun id => (processAudit audits id).isSome)).filterMap
         (processAudit audits) ∧
     (performanceAudits.filter
       (fun id => (processAudit audits id).isSome)).Sublist performanceAudits) ∧
    ((extractApiRecommendations audits).accessibility =
       (accessibilityAudits.filter
         (fun id => (processAudit audits id).isSome)).filterMap
         (processAudit audits) ∧
     (accessibilityAudits.filter
       (fun id => (processAudit audits id).isSome)).Sublist accessibilityAudits) ∧
    ((extractApiRecommendations audits).bestPractices =
       (bestPracticesAudits.filter
         (fun id => (processAudit audits id).isSome)).filterMap
         (processAudit audits) ∧
     (bestPracticesAudits.filter
       (fun id => (processAudit audits id).isSome)).Sublist bestPracticesAudits) ∧
    ((extractApiRecommendations audits).seo =
       (seoAudits.filter
         (fun id => (processAudit audits id).isSome)).filterMap
         (processAudit audits) ∧
     (seoAudits.filter
       (fun id => (processAudit audits id).isSome)).Sublist seoAudits) ∧
    (∀ audits' : AuditMap,
      (∀ id, (processAudit audits id).isSome = (processAudit audits' id).isSome) →
      performanceAudits.filter (fun id => (processAudit audits id).isSome) =
        performanceAudits.filter (fun id => (processAudit audits' id).isSome) ∧
      accessibilityAudits.filter (fun id => (processAudit audits id).isSome) =
        accessibilityAudits.filter (fun id => (processAudit audits' id).isSome) ∧
      bestPracticesAudits.filter (fun id => (processAudit audits id).isSome) =
        bestPracticesAudits.filter (fun id => (processAudit audits' id).isSome) ∧
      seoAudits.filter (fun id => (processAudit audits id).isSome) =
        seoAudits.filter (fun id => (processAudit audits' id).isSome)) := by
  refine ⟨⟨filterMap_eq_filter_filterMap _ _, List.filter_sublist _⟩,
    ⟨filterMap_eq_filter_filterMap _ _, List.filter_sublist _⟩,
    ⟨filterMap_eq_filter_filterMap _ _, List.filter_sublist _⟩,
    ⟨filterMap_eq_filter_filterMap _ _, List.filter_sublist _⟩, ?_⟩
  intro audits' hq
  refine ⟨?_, ?_, ?_, ?_⟩ <;>
    exact List.filter_congr (fun id _ => by rw [hq id])

/-- Witness for C7: the score-independence clause applied at a concrete
audit map. -/
theorem recommendations_follow_allowlist_order_witness :
    performanceAudits.filter
      (fun id => (processAudit (fun _ => none) id).isSome) =
      performanceAudits.filter
        (fun id => (processAudit (fun _ => none) id).isSome) :=
  ((recommendations_follow_allowlist_order (fun _ => none)).2.2.2.2
    (fun _ => none) (fun _ => rfl)).1

theorem processAudit_congr {audits audits' : AuditMap} {auditId : String}
    (h : audits auditId = audits' auditId) :
    processAudit audits auditId = processAudit audits' auditId := by
  unfold processAudit
  rw [h]

/-- Supporting lemma: over the typed data model the extractor is total
and local — every recommendation in each of the four output sequences
arises from a qualifying allowlisted identifier, and the whole result
depends only on the map's values at the allowlisted identifiers.  (This
does not extend to wrong-shaped dynamic values; see
`extract_faults_on_wrong_shape`.) -/
theorem extract_total_and_local (audits : AuditMap) :
    (∀ r ∈ (extractApiRecommendations audits).performance,
      ∃ id ∈ performanceAudits, processAudit audits id = some r) ∧
    (∀ r ∈ (extractApiRecommendations audits).accessibility,
      ∃ id ∈ accessibilityAudits, processAudit audits id = some r) ∧
    (∀ r ∈ (extractApiRecommendations audits).bestPractices,
      ∃ id ∈ bestPracticesAudits, processAudit audits id = some r) ∧
    (∀ r ∈ (extractApiRecommendations audits).seo,
      ∃ id ∈ seoAudits, processAudit audits id = some r) ∧
    (∀ audits' : AuditMap,
      (∀ id, id ∈ performanceAudits ∨ id ∈ accessibilityAudits ∨
        id ∈ bestPracticesAudits ∨ id ∈ seoAudits → audits id = audits' id) →
      extractApiRecommendations audits = extractApiRecommendations audits') := by
  refine ⟨?_, ?_, ?_, ?_, ?_⟩
  · intro r hr
    exact List.mem_filterMap.mp hr
  · intro r hr
    exact List.mem_filterMap.mp hr
  · intro r hr
    exact List.mem_filterMap.mp hr
  · intro r hr
    exact List.mem_filterMap.mp hr
  · intro audits' h
    have key : ∀ l : List String, (∀ id ∈ l, audits id = audits' id) →
        l.filterMap (processAudit audits) = l.filterMap (processAudit audits') :=
      fun l hl => List.filterMap_congr (fun id hid => processAudit_congr (hl id hid))
    have h1 := key performanceAudits (fun id hid => h id (Or.inl hid))
    have h2 := key accessibilityAudits (fun id hid => h id (Or.inr (Or.inl hid)))
    have h3 := key bestPracticesAudits (fun id hid => h id (Or.inr (Or.inr (Or.inl hid))))
    have h4 := key seoAudits (fun id hid => h id (Or.inr (Or.inr (Or.inr hid))))
    simp only [extractApiRecommendations, h1, h2, h3, h4]

/-- Locality at concrete inputs: two audit maps that differ only at an
identifier outside every allowlist produce the same result. -/
theorem extract_total_and_local_witness :
    extractApiRecommendations (fun _ => none) =
      extractApiRecommendations (fun id =>
        if id = "not-a-lighthouse-audit" then some ⟨none, none, none, none⟩
        else none) :=
  (extract_total_and_local (fun _ => none)).2.2.2.2
    (fun id =>
      if id = "not-a-lighthouse-audit" then some ⟨none, none, none, none⟩
      else none)
    (fun id hid => by
      have hne : id ≠ "not-a-lighthouse-audit" := by
        rintro rfl
        rcases hid with h | h | h | h <;> revert h <;> decide
      simp [hne])

/-- C5: on an input with zero URL-pattern matches, the URL-stripping step
(`description.replace(urlRegex, '').trim()`) returns exactly the trimmed
input, and the step is idempotent there. -/
theorem stripUrls_idempotent_no_urls (s : String) (h : jsMatchAll s = []) :
    stripUrls s = jsTrim s ∧ stripUrls (stripUrls s) = stripUrls s := by
  have h2 : (scanUrls s.toList).2 = [] := by
    unfold jsMatchAll at h
    exact List.map_eq_nil_iff.mp h
  obtain ⟨hnu, hkeep⟩ := noUrl_of_no_matches s.toList h2
  have hrep : replaceUrls s = s := by
    unfold replaceUrls
    rw [hkeep]
    exact asString_toList s
  have hfirst : stripUrls s = jsTrim s := by
    unfold stripUrls
    rw [hrep]
  refine ⟨hfirst, ?_⟩
  rw [hfirst]
  have htl : (jsTrim s).toList = jsTrimList s.toList := by
    unfold jsTrim
    exact toList_asString _
  have hnu2 : noUrl (jsTrim s).toList := by
    rw [htl]
    obtain ⟨a, b, hab⟩ := jsTrimList_infix s.toList
    exact noUrl_append_inner (hab ▸ hnu)
  have hscan2 : scanUrls (jsTrim s).toList = ((jsTrim s).toList, []) :=
    scan_of_noUrl _ hnu2
  have hrep2 : replaceUrls (jsTrim s) = jsTrim s := by
    unfold replaceUrls
    rw [hscan2]
    exact asString_toList _
  unfold stripUrls
  rw [hrep2]
  unfold jsTrim
  rw [toList_asString, jsTrimList_idem]

/-- Witness for C5 at a concrete URL-free string. -/
theorem stripUrls_idempotent_no_urls_witness :
    stripUrls " hello world " = jsTrim " hello world " ∧
    stripUrls (stripUrls " hello world ") = stripUrls " hello world " :=
  stripUrls_idempotent_no_urls " hello world " (by decide)

/-- C4: when the input contains at least one URL-pattern match,
`processDescription` removes every occurrence of the pattern (the
resulting text contains no match), trims trailing punctuation,
parentheses and whitespace (the resulting text's last character, if any,
is outside the trailing cleanup class), and sets `learnMoreUrl` to the
first match found in the original text; when the input contains no match,
`learnMoreUrl` is null. -/
theorem processDescription_url_extraction (s : String) :
    (∀ u us, jsMatchAll s = u :: us →
      descUrl (processDescription s) = some u ∧
      jsMatchAll (descText (processDescription s)) = [] ∧
      (∀ c, (descText (processDescription s)).toList.getLast? = some c →
        trailingClass c = false)) ∧
    (jsMatchAll s = [] → descUrl (processDescription s) = none) := by
  constructor
  · intro u us hs
    rw [processDescription_of_matches hs]
    simp only [descText, descUrl]
    have hk : noUrl (scanUrls s.toList).1 := kept_noUrl s.toList
    have ht0 : (replaceUrls s).toList = (scanUrls s.toList).1 := toList_asString _
    have ht1 : (jsTrim (replaceUrls s)).toList =
        jsTrimList (scanUrls s.toList).1 := by
      unfold jsTrim
      rw [toList_asString, ht0]
    have hnu1 : noUrl (jsTrim (replaceUrls s)).toList := by
      rw [ht1]
      obtain ⟨a, b, hab⟩ := jsTrimList_infix (scanUrls s.toList).1
      exact noUrl_append_inner (hab ▸ hk)
    have ht2 : (stripTrailing (jsTrim (replaceUrls s))).toList =
        stripTrailingList (jsTrim (replaceUrls s)).toList := by
      unfold stripTrailing
      rw [toList_asString]
    have hnu2 : noUrl (stripTrailing (jsTrim (replaceUrls s))).toList := by
      rw [ht2]
      obtain ⟨b, hb⟩ := stripTrailingList_decomp (jsTrim (replaceUrls s)).toList
      have hfull : noUrl ([] ++
          stripTrailingList (jsTrim (replaceUrls s)).toList ++ b) := by
        rw [List.nil_append, ← hb]
        exact hnu1
      exact noUrl_append_inner hfull
    have ht3 : (jsTrim (stripTrailing (jsTrim (replaceUrls s)))).toList =
        jsTrimList (stripTrailing (jsTrim (replaceUrls s))).toList := by
      unfold jsTrim
      rw [toList_asString]
    have hnu3 : noUrl (jsTrim (stripTrailing (jsTrim (replaceUrls s)))).toList := by
      rw [ht3]
      obtain ⟨a, b, hab⟩ :=
        jsTrimList_infix (stripTrailing (jsTrim (replaceUrls s))).toList
      exact noUrl_append_inner (hab ▸ hnu2)
    refine ⟨trivial, ?_, ?_⟩
    · unfold jsMatchAll
      rw [scan_of_noUrl _ hnu3]
      rfl
    · intro c hc
      rw [ht3] at hc
      have hhead : ∀ x xs,
          (stripTrailing (jsTrim (replaceUrls s))).toList = x :: xs →
          jsSpace x = false := by
        intro x xs hx
        rw [ht2] at hx
        obtain ⟨t, ht⟩ := stripTrailingList_head hx
        rw [ht1] at ht
        exact trim_head_not_space ht
      have hlast : ∀ c',
          (stripTrailing (jsTrim (replaceUrls s))).toList.getLast? = some c' →
          jsSpace c' = false := by
        intro c' hc'
        rw [ht2] at hc'
        have htr := stripTrailing_getLast hc'
        cases hj : jsSpace c' with
        | false => rfl
        | true =>
          rw [trailingClass_of_space hj] at htr
          exact absurd htr (by simp)
      rw [jsTrimList_eq_self hhead hlast] at hc
      rw [ht2] at hc
      exact stripTrailing_getLast hc
  · intro h
    unfold processDescription
    by_cases hse : s = ""
    · rw [if_pos hse]
      rfl
    · rw [if_neg hse, h]
      rfl

/-- Witness for C4 at a concrete string with one URL. -/
theorem processDescription_url_extraction_witness :
    descUrl (processDescription "See https://web.dev for info") =
      some "https://web" ∧
    jsMatchAll (descText (processDescription "See https://web.dev for info")) =
      [] :=
  ⟨((processDescription_url_extraction "See https://web.dev for info").1
      "https://web" [] (by decide)).1,
   ((processDescription_url_extraction "See https://web.dev for info").1
      "https://web" [] (by decide)).2.1⟩

/-- C8: the claim that the extractor never raises a fault on malformed
entries is violated by the code on wrong-shaped values.  At the failing
input where the allowlisted identifier `focus-traps` (which has no entry
in the friendly-description table) carries the truthy non-string
description `42`, the truthiness guard passes, the table miss returns the
number itself, and `description.match(urlRegex)` at line 201 throws a
`TypeError` that propagates out of `extractApiRecommendations` — the
entry is not skipped and the whole extraction faults. -/
theorem extract_faults_on_wrong_shape :
    extractApiRecommendationsDyn (fun id =>
      if id = "focus-traps" then
        some ⟨some 0, some "T", JsVal.vNum 42, none⟩
      else none) = Except.error () := by
  rfl
